import Mathlib

/-!
Shallow embedding of the SSD-Tensorflow evaluation excerpt:
  * `src/tf_extended/metrics.py` (streaming precision/recall metrics),
  * `src/preprocessing/preprocessing_factory.py` (preprocessing selector),
  * `src/eval_ssd_network.py` (evaluation driver, the parts under scrutiny).

Real-valued tensors are modelled as lists of rationals (`List ℚ`), integer
tensors as lists of integers, and scalar int64 accumulators as `ℤ`.
Fallible Python code (`raise ValueError`) is modelled with `Except String`.
-/

namespace SSDTF

/-- Embeds `_safe_div` (metrics.py:61-74): `tf.where(denominator > 0,
numerator / denominator, 0)`, element-wise; here the scalar case. -/
def safe_div (numerator denominator : ℚ) : ℚ :=
  if 0 < denominator then numerator / denominator else 0

/-- Inclusive cumulative sum, embedding `tf.cumsum(_, axis=0)`. -/
def cumsum : List ℚ → List ℚ
  | [] => []
  | x :: xs => x :: (cumsum xs).map (fun y => x + y)

/-- Descending-by-score order on `(score, (tp, fp))` detection triples.
`tf.nn.top_k(scores, k=size, sorted=True)` sorts scores descending and
breaks ties by lower original index; a stable insertion sort with this
relation reproduces exactly that permutation on the zipped triples. -/
def scoreGE (x y : ℚ × ℚ × ℚ) : Prop := y.1 ≤ x.1

instance : DecidableRel scoreGE := fun x y => inferInstanceAs (Decidable (y.1 ≤ x.1))

instance : IsTotal (ℚ × ℚ × ℚ) scoreGE := ⟨fun a b => le_total b.1 a.1⟩

instance : IsTrans (ℚ × ℚ × ℚ) scoreGE := ⟨fun _ _ _ hab hbc => le_trans hbc hab⟩

/-- Embeds `_precision_recall` (metrics.py:102-116): sort detections by
descending score (`top_k` + `gather` modelled as a stable sort of the
zipped `(score, (tp, fp))` triples), take cumulative sums, then
`recall = _safe_div(tp, n)`, `precision = _safe_div(tp, tp + fp)`;
returns `(precision, recall)` as in `tf.tuple([precision, recall])`. -/
def precision_recall (n_gbboxes : ℤ) (scores tp fp : List ℚ) : List ℚ × List ℚ :=
  let dets := scores.zip (tp.zip fp)
  let sorted := List.insertionSort scoreGE dets
  let tps := cumsum (sorted.map (fun d => d.2.1))
  let fps := cumsum (sorted.map (fun d => d.2.2))
  let recl := tps.map (fun t => safe_div t (n_gbboxes : ℚ))
  let prec := List.zipWith (fun t f => safe_div t (t + f)) tps fps
  (prec, recl)

/-- One update call's inputs to `streaming_precision_recall_arrays`
(metrics.py:119), already flattened to one dimension (the reshapes at
metrics.py:136-139 only flatten). -/
structure Batch where
  n_gbboxes : List ℤ
  rclasses : List ℤ
  rscores : List ℚ
  tp_tensor : List ℚ
  fp_tensor : List ℚ
deriving DecidableEq, Repr

/-- The four local accumulator variables of
`streaming_precision_recall_arrays` (metrics.py:148-151). -/
structure PRState where
  v_nobjects : ℤ
  v_scores : List ℚ
  v_tp : List ℚ
  v_fp : List ℚ
deriving DecidableEq, Repr

/-- Accumulators start at zero / empty (`_create_local` zero-initialises). -/
def initState : PRState := ⟨0, [], [], []⟩

/-- Embeds `tf.boolean_mask(tensor, mask)` on 1-D tensors. -/
def boolean_mask {α : Type} : List α → List Bool → List α
  | [], _ => []
  | _, [] => []
  | x :: xs, m :: ms => if m then x :: boolean_mask xs ms else boolean_mask xs ms

/-- The class mask `tf.greater(rclasses, 0)` (metrics.py:141). -/
def class_mask (rclasses : List ℤ) : List Bool :=
  rclasses.map (fun c => decide (0 < c))

/-- Embeds one update of `streaming_precision_recall_arrays`
(metrics.py:130-162).  Faithful to the source, including line 139
`fp_tensor = tf.reshape(tp_tensor, [-1])`, which re-binds the local
`fp_tensor` to the (flattened) `tp_tensor` values before the optional
zero-label filtering, so that the `fp_tensor` argument is never
accumulated.  The `tf.Print` at line 162 is an identity pass-through. -/
def update (remove_zero_labels : Bool) (s : PRState) (b : Batch) : PRState :=
  let rscores := b.rscores
  let tp_tensor := b.tp_tensor
  let fp_tensor := b.tp_tensor
  let mask := class_mask b.rclasses
  let rscores := if remove_zero_labels then boolean_mask rscores mask else rscores
  let tp_tensor := if remove_zero_labels then boolean_mask tp_tensor mask else tp_tensor
  let fp_tensor := if remove_zero_labels then boolean_mask fp_tensor mask else fp_tensor
  { v_nobjects := s.v_nobjects + b.n_gbboxes.sum
    v_scores := s.v_scores ++ rscores
    v_tp := s.v_tp ++ tp_tensor
    v_fp := s.v_fp ++ fp_tensor }

/-- Run a sequence of update calls starting from the fresh accumulators. -/
def runUpdates (remove_zero_labels : Bool) (l : List Batch) : PRState :=
  l.foldl (update remove_zero_labels) initState

/-- The metric's value read `r` (metrics.py:165): `_precision_recall`
applied to the current accumulator state. -/
def streamValue (s : PRState) : List ℚ × List ℚ :=
  precision_recall s.v_nobjects s.v_scores s.v_tp s.v_fp

/-- Modelled from the spec: `tfe.cummax(x, reverse=True)` lives in
`tf_extended/math.py`, which is not part of this excerpt; §6.3 describes it
as "the running maximum scanned from the end of a sequence backward". -/
def cummax_reverse : List ℚ → List ℚ
  | [] => []
  | x :: xs =>
    match cummax_reverse xs with
    | [] => [x]
    | y :: ys => max x y :: y :: ys

/-- Embeds `average_precision` (metrics.py:177-191): pad precision with
0/0 and recall with 0/1, apply the reverse running maximum to precision,
then `sum((p[1:] + p[:-1]) / 2 * (r[1:] - r[:-1]))`. -/
def average_precision (precision recl : List ℚ) : ℚ :=
  let p := 0 :: precision ++ [0]
  let r := 0 :: recl ++ [1]
  let pe := cummax_reverse p
  let mean_pre := List.zipWith (fun a b => (a + b) / 2) (pe.drop 1) pe
  let diff_rec := List.zipWith (fun a b => a - b) (r.drop 1) r
  (List.zipWith (fun a b => a * b) mean_pre diff_rec).sum

/-- The spec's wording of the precision envelope (§4.3.2): "each precision
value becomes the maximum of itself and all precision values at
higher-or-equal recall", i.e. the maximum over the suffix starting at the
value's own position. -/
def suffix_max_at (l : List ℚ) (i : ℕ) : ℚ :=
  match l.drop i with
  | [] => 0
  | x :: xs => xs.foldl max x

/-- The spec's wording of the whole AP computation (§4.3.2), used as the
reference against which the code's `average_precision` is compared:
pad, take the suffix maximum at every position, then sum over adjacent
pairs the mean of the two enveloped precisions times the recall
difference. -/
def spec_average_precision (precision recl : List ℚ) : ℚ :=
  let p := 0 :: precision ++ [0]
  let r := 0 :: recl ++ [1]
  let pe := (List.range p.length).map (suffix_max_at p)
  (List.zipWith (fun a b => a * b)
    (List.zipWith (fun a b => (a + b) / 2) (pe.drop 1) pe)
    (List.zipWith (fun a b => a - b) (r.drop 1) r)).sum

/-- Embeds `tf.reduce_min` on a 1-D tensor.  TensorFlow returns `+inf` on
an empty tensor; the empty case is not modelled and all statements below
assume a nonempty curve. -/
def reduce_min : List ℚ → ℚ
  | [] => 0
  | x :: xs => xs.foldl min x

/-- Embeds `precision_recall_values` (metrics.py:194-211): for each target
`x`, `tf.reduce_min(precision * tf.cast(recall <= x, dtype))`. -/
def precision_recall_values (xvals precision recl : List ℚ) : List ℚ :=
  xvals.map (fun x =>
    reduce_min (List.zipWith (fun p r => p * (if r ≤ x then (1 : ℚ) else 0)) precision recl))

/-- The spec's wording for §4.3.3: "the minimum precision value among all
curve points whose recall is ≤ x" (0 when no point qualifies).  Used to
compare the code's `precision_recall_values` against the claimed
behaviour. -/
def min_qualifying_precision (x : ℚ) (precision recl : List ℚ) : ℚ :=
  reduce_min (((precision.zip recl).filter (fun pr => pr.2 ≤ x)).map Prod.fst)

/-- The two preprocessing families imported by
`preprocessing_factory.py` (lines 24-25). -/
inductive PreprocModule : Type
  | vgg_preprocessing : PreprocModule
  | inception_preprocessing : PreprocModule
deriving DecidableEq, Repr

/-- The closure returned by `get_preprocessing`: it forwards to the chosen
family's `preprocess_image` with the `is_training` flag captured at
selection time, so it is determined by exactly these two values. -/
structure PreprocessingFn where
  family : PreprocModule
  is_training : Bool
deriving DecidableEq, Repr

/-- The dispatch table `preprocessing_fn_map`
(preprocessing_factory.py:45-56). -/
def preprocessing_fn_map : List (String × PreprocModule) :=
  [("vgg", .vgg_preprocessing),
   ("vgg_a", .vgg_preprocessing),
   ("vgg_16", .vgg_preprocessing),
   ("vgg_19", .vgg_preprocessing),
   ("inception_v3", .inception_preprocessing),
   ("inception_resnet_v2", .inception_preprocessing),
   ("xception", .inception_preprocessing),
   ("xception_keras", .inception_preprocessing),
   ("dception", .inception_preprocessing),
   ("ssd_300_vgg", .vgg_preprocessing)]

/-- Embeds `get_preprocessing` (preprocessing_factory.py:30-65): raise
`ValueError('Preprocessing name [%s] was not recognized' % name)` when the
name is not a key of the table, else return the forwarding closure. -/
def get_preprocessing (name : String) (is_training : Bool) : Except String PreprocessingFn :=
  match preprocessing_fn_map.lookup name with
  | none => .error ("Preprocessing name [" ++ name ++ "] was not recognized")
  | some m => .ok ⟨m, is_training⟩

/-- Python truthiness of the `max_num_batches` flag
(`if FLAGS.max_num_batches:` at eval_ssd_network.py:239): `None` and `0`
are both falsy. -/
def flag_truthy : Option ℤ → Bool
  | none => false
  | some m => m != 0

/-- Embeds the batch-count derivation (eval_ssd_network.py:238-242):
`max_num_batches` when truthy, else
`math.ceil(dataset.num_samples / float(batch_size))` (exact rational
division; `batch_size = 0` would raise in Python and is excluded by
hypothesis wherever it matters). -/
def num_batches (max_num_batches : Option ℤ) (num_samples batch_size : ℕ) : ℤ :=
  if flag_truthy max_num_batches then max_num_batches.getD 0
  else ⌈(num_samples : ℚ) / (batch_size : ℚ)⌉

/-- Python truthiness of the `dataset_dir` flag
(`if not FLAGS.dataset_dir:` at eval_ssd_network.py:88): `None` and the
empty string are falsy. -/
def dataset_dir_truthy : Option String → Bool
  | none => false
  | some s => !s.isEmpty

/-- Embeds the guard at the top of `main` (eval_ssd_network.py:87-89).
The rest of `main` only runs past the guard; it is abstracted as an
arbitrary pipeline constructor `build`, so that failing for every `build`
shows no pipeline entity is constructed. -/
def main_entry {α : Type} (dataset_dir : Option String) (build : Unit → α) : Except String α :=
  if dataset_dir_truthy dataset_dir then .ok (build ())
  else .error "You must supply the dataset directory with --dataset_dir"

lemma lookup_eq_none_of_not_mem_keys {β : Type} (l : List (String × β)) (name : String)
    (h : name ∉ l.map Prod.fst) : l.lookup name = none := by
  induction l with
  | nil => rfl
  | cons kv rest ih =>
    obtain ⟨k, v⟩ := kv
    simp only [List.map_cons, List.mem_cons, not_or] at h
    obtain ⟨h1, h2⟩ := h
    have hb : (name == k) = false := by simpa using h1
    simp [List.lookup, hb, ih h2]

/-- C6: `_safe_div` is total — it returns 0 whenever the denominator is
non-positive and the exact quotient whenever it is positive. -/
theorem safe_div_spec (n d : ℚ) :
    (d ≤ 0 → safe_div n d = 0) ∧ (0 < d → safe_div n d = n / d) := by
  constructor
  · intro h
    simp [safe_div, not_lt.mpr h]
  · intro h
    simp [safe_div, h]

theorem safe_div_spec_witness :
    ((-2 : ℚ) ≤ 0 ∧ safe_div 6 (-2) = 0) ∧ ((0 : ℚ) < 3 ∧ safe_div 6 3 = 6 / 3) :=
  ⟨⟨by norm_num, (safe_div_spec 6 (-2)).1 (by norm_num)⟩,
   ⟨by norm_num, (safe_div_spec 6 3).2 (by norm_num)⟩⟩

/-- C1: with `remove_zero_labels` enabled, every update appends to the
false-positive accumulator exactly the class-mask-filtered values of the
true-positive input (`metrics.py:139` re-binds `fp_tensor` to
`tp_tensor`), and in general not the filtered values of the
false-positive input. -/
theorem update_fp_carries_tp (s : PRState) (b : Batch) :
    (update true s b).v_fp = s.v_fp ++ boolean_mask b.tp_tensor (class_mask b.rclasses) ∧
    ∃ s0 b0, (update true s0 b0).v_fp ≠
      s0.v_fp ++ boolean_mask b0.fp_tensor (class_mask b0.rclasses) := by
  refine ⟨rfl, ⟨initState, ⟨[], [1], [1], [1], [0]⟩, ?_⟩⟩
  norm_num [update, initState, boolean_mask, class_mask]

/-- C10 (counterexample): the guard's error message is
"You must supply the dataset directory with --dataset_dir", not the
claimed exact message "You must supply the dataset directory". -/
theorem dataset_dir_message_counterexample :
    main_entry none (fun _ => (0 : ℕ)) =
      .error "You must supply the dataset directory with --dataset_dir" ∧
    "You must supply the dataset directory with --dataset_dir" ≠
      "You must supply the dataset directory" :=
  ⟨rfl, by decide⟩

/-- C10 (amended): with the dataset directory absent (unset or empty),
`main` fails fast with the message
"You must supply the dataset directory with --dataset_dir", for every
possible downstream pipeline constructor — so nothing is constructed. -/
theorem dataset_dir_guard_amended {α : Type} (build : Unit → α) :
    main_entry none build =
      .error "You must supply the dataset directory with --dataset_dir" ∧
    main_entry (some "") build =
      .error "You must supply the dataset directory with --dataset_dir" :=
  ⟨rfl, rfl⟩

/-- C8 (counterexample): `max_num_batches` explicitly configured to 0 is
ignored (Python truthiness), so the batch count falls back to the ceiling
formula (10 for 950 samples at batch size 100) instead of 0. -/
theorem num_batches_zero_flag_counterexample :
    num_batches (some 0) 950 100 = 10 ∧ num_batches (some 0) 950 100 ≠ 0 := by
  have h : num_batches (some 0) 950 100 = ⌈(950 : ℚ) / (100 : ℚ)⌉ := rfl
  have h10 : (⌈(950 : ℚ) / (100 : ℚ)⌉ : ℤ) = 10 := by
    rw [Int.ceil_eq_iff]
    norm_num
  rw [h, h10]
  norm_num

/-- C8 (amended): the batch count is `max_num_batches` whenever that flag
is configured to a nonzero value; otherwise (unset, or configured to 0,
which Python truthiness treats as unset) it is the ceiling of
sample count / batch size, which for positive batch size equals
`(num_samples + batch_size - 1) / batch_size` in integer arithmetic;
in particular 950 samples at batch size 100 give 10 batches, and a
configured value of 3 gives exactly 3. -/
theorem num_batches_amended (m : ℤ) (n bsz : ℕ) (hm : m ≠ 0) (hb : 0 < bsz) :
    num_batches (some m) n bsz = m ∧
    num_batches none n bsz = ⌈(n : ℚ) / (bsz : ℚ)⌉ ∧
    num_batches (some 0) n bsz = ⌈(n : ℚ) / (bsz : ℚ)⌉ ∧
    num_batches none n bsz = (((n + bsz - 1) / bsz : ℕ) : ℤ) ∧
    num_batches none 950 100 = 10 ∧
    num_batches (some 3) n bsz = 3 := by
  have hbq : (0 : ℚ) < (bsz : ℚ) := by exact_mod_cast hb
  have hceil : (⌈(n : ℚ) / (bsz : ℚ)⌉ : ℤ) = (((n + bsz - 1) / bsz : ℕ) : ℤ) := by
    have hq := Nat.div_add_mod (n + bsz - 1) bsz
    have hr : (n + bsz - 1) % bsz < bsz := Nat.mod_lt _ hb
    set q := (n + bsz - 1) / bsz with hqdef
    have h1 : n ≤ bsz * q := by omega
    have h2 : bsz * q < n + bsz := by omega
    have h1' : (n : ℚ) ≤ (bsz : ℚ) * (q : ℚ) := by exact_mod_cast h1
    have h2' : (bsz : ℚ) * (q : ℚ) < (n : ℚ) + (bsz : ℚ) := by exact_mod_cast h2
    rw [Int.ceil_eq_iff]
    constructor
    · push_cast
      rw [lt_div_iff₀ hbq]
      nlinarith
    · push_cast
      rw [div_le_iff₀ hbq]
      linarith
  refine ⟨?_, rfl, ?_, ?_, ?_, ?_⟩
  · simp [num_batches, flag_truthy, hm]
  · rfl
  · exact hceil
  · rw [show num_batches none 950 100 = (⌈(950 : ℚ) / (100 : ℚ)⌉ : ℤ) from rfl,
      Int.ceil_eq_iff]
    norm_num
  · simp [num_batches, flag_truthy]

theorem num_batches_amended_witness :
    (3 : ℤ) ≠ 0 ∧ 0 < 100 ∧
    (num_batches (some 3) 950 100 = 3 ∧
     num_batches none 950 100 = ⌈(950 : ℚ) / (100 : ℚ)⌉ ∧
     num_batches (some 0) 950 100 = ⌈(950 : ℚ) / (100 : ℚ)⌉ ∧
     num_batches none 950 100 = (((950 + 100 - 1) / 100 : ℕ) : ℤ) ∧
     num_batches none 950 100 = 10 ∧
     num_batches (some 3) 950 100 = 3) :=
  ⟨by norm_num, by norm_num, num_batches_amended 3 950 100 (by norm_num) (by norm_num)⟩

/-- C7: `get_preprocessing` recognizes exactly the 10 case-sensitive
names — the five VGG-family names and the five Inception-family names —
returning a closure that forwards to the selected family with the
captured `is_training` flag, and fails on every other name with the
message "Preprocessing name [<name>] was not recognized". -/
theorem get_preprocessing_spec (b : Bool) (name : String)
    (h : name ∉ preprocessing_fn_map.map Prod.fst) :
    (∀ n ∈ ["vgg", "vgg_a", "vgg_16", "vgg_19", "ssd_300_vgg"],
      get_preprocessing n b = .ok ⟨.vgg_preprocessing, b⟩) ∧
    (∀ n ∈ ["inception_v3", "inception_resnet_v2", "xception", "xception_keras", "dception"],
      get_preprocessing n b = .ok ⟨.inception_preprocessing, b⟩) ∧
    get_preprocessing name b =
      .error ("Preprocessing name [" ++ name ++ "] was not recognized") := by
  refine ⟨?_, ?_, ?_⟩
  · intro n hn
    fin_cases hn <;> rfl
  · intro n hn
    fin_cases hn <;> rfl
  · rw [get_preprocessing, lookup_eq_none_of_not_mem_keys _ _ h]

theorem get_preprocessing_spec_witness :
    ("resnet_v1" ∉ preprocessing_fn_map.map Prod.fst) ∧
    (get_preprocessing "vgg" true = .ok ⟨.vgg_preprocessing, true⟩ ∧
     get_preprocessing "xception" true = .ok ⟨.inception_preprocessing, true⟩ ∧
     get_preprocessing "resnet_v1" true =
       .error ("Preprocessing name [" ++ "resnet_v1" ++ "] was not recognized")) := by
  have hmem : "resnet_v1" ∉ preprocessing_fn_map.map Prod.fst := by decide
  obtain ⟨h1, h2, h3⟩ := get_preprocessing_spec true "resnet_v1" hmem
  exact ⟨hmem, h1 "vgg" (by simp), h2 "xception" (by simp), h3⟩

lemma foldl_max_max (l : List ℚ) (a b : ℚ) :
    l.foldl max (max a b) = max a (l.foldl max b) := by
  induction l generalizing b with
  | nil => rfl
  | cons c l ih =>
    simp only [List.foldl_cons]
    rw [max_assoc]
    exact ih (max b c)

lemma suffix_max_at_cons_succ (x : ℚ) (xs : List ℚ) (i : ℕ) :
    suffix_max_at (x :: xs) (i + 1) = suffix_max_at xs i := by
  simp [suffix_max_at]

lemma cummax_reverse_ne_nil (z : ℚ) (zs : List ℚ) : cummax_reverse (z :: zs) ≠ [] := by
  cases h : cummax_reverse zs <;> simp [cummax_reverse, h]

lemma cummax_reverse_head (z : ℚ) (zs : List ℚ) :
    (cummax_reverse (z :: zs)).headD 0 = zs.foldl max z := by
  induction zs generalizing z with
  | nil => rfl
  | cons w ws ih =>
    cases h : cummax_reverse (w :: ws) with
    | nil => exact absurd h (cummax_reverse_ne_nil w ws)
    | cons y ys =>
      have hy : y = ws.foldl max w := by
        have hh := ih w
        rw [h] at hh
        simpa using hh
      have hstep : cummax_reverse (z :: w :: ws) = max z y :: y :: ys := by
        rw [cummax_reverse, h]
      rw [hstep]
      simp only [List.headD_cons, List.foldl_cons]
      rw [hy, ← foldl_max_max]

lemma cummax_reverse_eq (l : List ℚ) :
    cummax_reverse l = (List.range l.length).map (suffix_max_at l) := by
  induction l with
  | nil => rfl
  | cons x xs ih =>
    have hrange : List.range (x :: xs).length = 0 :: (List.range xs.length).map Nat.succ := by
      rw [List.length_cons, List.range_succ_eq_map]
    rw [hrange, List.map_cons, List.map_map]
    have htail : (List.range xs.length).map (suffix_max_at (x :: xs) ∘ Nat.succ)
        = cummax_reverse xs := by
      rw [ih]
      apply List.map_congr_left
      intro i _
      simp [Function.comp, suffix_max_at_cons_succ]
    rw [htail]
    cases xs with
    | nil => simp [cummax_reverse, suffix_max_at]
    | cons z zs =>
      cases h : cummax_reverse (z :: zs) with
      | nil => exact absurd h (cummax_reverse_ne_nil z zs)
      | cons y ys =>
        have hy : y = zs.foldl max z := by
          have hh := cummax_reverse_head z zs
          rw [h] at hh
          simpa using hh
        have hstep : cummax_reverse (x :: z :: zs) = max x y :: y :: ys := by
          rw [cummax_reverse, h]
        rw [hstep]
        have hsm : suffix_max_at (x :: z :: zs) 0 = zs.foldl max (max x z) := by
          simp [suffix_max_at]
        rw [hsm, hy, ← foldl_max_max]

/-- C4: `average_precision` coincides with the spec's algorithm — pad with
(0,0)/(0,1), replace precision by the maximum of itself and all later
values, sum over adjacent pairs the mean of the two enveloped precisions
times the recall difference — and the degenerate curve
precision=[1], recall=[1] yields exactly AP = 1. -/
theorem average_precision_spec (p r : List ℚ) :
    average_precision p r = spec_average_precision p r ∧
    average_precision [1] [1] = 1 := by
  constructor
  · simp only [average_precision, spec_average_precision]
    rw [cummax_reverse_eq]
  · norm_num [average_precision, cummax_reverse]

lemma zipWith_eq_map_zip {α β γ : Type} (f : α → β → γ) :
    ∀ (a : List α) (b : List β), List.zipWith f a b = (a.zip b).map (fun p => f p.1 p.2)
  | [], _ => by simp
  | _ :: _, [] => by simp
  | x :: xs, y :: ys => by simp [zipWith_eq_map_zip f xs ys]

lemma foldl_min_self_zero (xs : List ℚ) (h : ∀ y ∈ xs, y = 0) : xs.foldl min 0 = 0 := by
  induction xs with
  | nil => rfl
  | cons a l ih =>
    have ha : a = 0 := h a (by simp)
    rw [List.foldl_cons, ha, min_self]
    exact ih (fun y hy => h y (by simp [hy]))

lemma reduce_min_all_zero (l : List ℚ) (hne : l ≠ []) (h : ∀ y ∈ l, y = 0) :
    reduce_min l = 0 := by
  cases l with
  | nil => exact absurd rfl hne
  | cons a t =>
    have ha : a = 0 := h a (by simp)
    rw [reduce_min, ha]
    exact foldl_min_self_zero t (fun y hy => h y (by simp [hy]))

/-- C5 (counterexample): for the curve precision=[9/10, 8/10],
recall=[1/10, 9/10] and target recall 1/2, the code returns 0 (the masked
minimum includes the zeroed non-qualifying point) while the minimum
precision among qualifying points is 9/10. -/
theorem precision_recall_values_claim_counterexample :
    precision_recall_values [1/2] [9/10, 8/10] [1/10, 9/10] = [0] ∧
    min_qualifying_precision (1/2) [9/10, 8/10] [1/10, 9/10] = 9/10 ∧
    (0 : ℚ) ≠ 9/10 := by
  refine ⟨?_, ?_, by norm_num⟩
  · norm_num [precision_recall_values, reduce_min]
  · norm_num [min_qualifying_precision, reduce_min, List.filter]

/-- C5 (amended): `precision_recall_values` returns one scalar per
requested recall value, in order; the scalar for target `x` is the
minimum over all curve points of precision masked by `recall ≤ x` — which
is 0 whenever no curve point has recall ≤ x, and equals the minimum
precision only when every curve point qualifies (zeroed non-qualifying
points otherwise participate in the minimum). -/
theorem precision_recall_values_amended (xvals p r : List ℚ) (x : ℚ)
    (hlen : p.length = r.length) (hne : p ≠ []) :
    (precision_recall_values xvals p r).length = xvals.length ∧
    ((∀ pr ∈ p.zip r, ¬ pr.2 ≤ x) → precision_recall_values [x] p r = [0]) ∧
    ((∀ pr ∈ p.zip r, pr.2 ≤ x) → precision_recall_values [x] p r = [reduce_min p]) := by
  have hzlen : (p.zip r).length = p.length := by
    rw [List.length_zip]
    omega
  have hzne : p.zip r ≠ [] := by
    intro hnil
    have := hzlen
    rw [hnil] at this
    simp at this
    exact hne (List.eq_nil_of_length_eq_zero this.symm)
  refine ⟨by simp [precision_recall_values], ?_, ?_⟩
  · intro hall
    rw [precision_recall_values, List.map_singleton]
    congr 1
    apply reduce_min_all_zero
    · rw [zipWith_eq_map_zip]
      intro hnil
      exact hzne (List.map_eq_nil_iff.mp hnil)
    · rw [zipWith_eq_map_zip]
      intro y hy
      obtain ⟨pr, hpr, rfl⟩ := List.mem_map.mp hy
      simp [if_neg (hall pr hpr)]
  · intro hall
    rw [precision_recall_values, List.map_singleton]
    congr 1
    rw [zipWith_eq_map_zip]
    have hmap : (p.zip r).map (fun pr => pr.1 * (if pr.2 ≤ x then (1 : ℚ) else 0))
        = (p.zip r).map Prod.fst := by
      apply List.map_congr_left
      intro pr hpr
      simp [if_pos (hall pr hpr)]
    rw [hmap, List.map_fst_zip p r (le_of_eq hlen)]

theorem precision_recall_values_amended_witness :
    (([(1 : ℚ)].length = [(1 : ℚ)].length ∧ [(1 : ℚ)] ≠ []) ∧
     ((precision_recall_values [0] [1] [1]).length = [(0 : ℚ)].length ∧
      ((∀ pr ∈ [(1 : ℚ)].zip [(1 : ℚ)], ¬ pr.2 ≤ (0 : ℚ)) →
        precision_recall_values [0] [1] [1] = [0]) ∧
      ((∀ pr ∈ [(1 : ℚ)].zip [(1 : ℚ)], pr.2 ≤ (0 : ℚ)) →
        precision_recall_values [0] [1] [1] = [reduce_min [1]]))) :=
  ⟨⟨rfl, by simp⟩, precision_recall_values_amended [0] [1] [1] 0 rfl (by simp)⟩

lemma zip_self_eq_map {α : Type} (l : List α) : l.zip l = l.map (fun x => (x, x)) := by
  induction l with
  | nil => rfl
  | cons a t ih => simp [ih]

lemma zipWith_self {α β : Type} (f : α → α → β) (l : List α) :
    List.zipWith f l l = l.map (fun x => f x x) := by
  induction l with
  | nil => rfl
  | cons a t ih => simp [ih]

lemma safe_div_double (c : ℚ) : safe_div c (c + c) = 0 ∨ safe_div c (c + c) = 1 / 2 := by
  by_cases h : 0 < c + c
  · right
    simp only [safe_div, if_pos h]
    rw [div_eq_iff (ne_of_gt h)]
    ring
  · left
    simp [safe_div, h]

lemma getD_zero_or_half (l : List ℚ) (h : ∀ y ∈ l, y = 0 ∨ y = 1 / 2) (i : ℕ) :
    l.getD i 0 = 0 ∨ l.getD i 0 = 1 / 2 := by
  induction l generalizing i with
  | nil => left; rfl
  | cons a t ih =>
    cases i with
    | zero => simpa using h a (by simp)
    | succ n => exact ih (fun y hy => h y (by simp [hy])) n

lemma update_preserves_fp_eq_tp (rz : Bool) (s : PRState) (b : Batch)
    (h : s.v_fp = s.v_tp) : (update rz s b).v_fp = (update rz s b).v_tp := by
  simp [update, h]

lemma runUpdates_fp_eq_tp (rz : Bool) (l : List Batch) :
    (runUpdates rz l).v_fp = (runUpdates rz l).v_tp := by
  suffices h : ∀ s : PRState, s.v_fp = s.v_tp →
      (l.foldl (update rz) s).v_fp = (l.foldl (update rz) s).v_tp from h initState rfl
  induction l with
  | nil => exact fun s hs => hs
  | cons b t ih => exact fun s hs => ih _ (update_preserves_fp_eq_tp rz s b hs)

lemma precision_recall_fst_mem (n : ℤ) (sc t : List ℚ) :
    ∀ y ∈ (precision_recall n sc t t).1, y = 0 ∨ y = 1 / 2 := by
  have hdiag : ∀ d ∈ sc.zip (t.zip t), (d : ℚ × ℚ × ℚ).2.1 = d.2.2 := by
    intro d hd
    obtain ⟨a, bc⟩ := d
    have h2 : bc ∈ t.zip t := (List.of_mem_zip hd).2
    rw [zip_self_eq_map] at h2
    obtain ⟨x, _, rfl⟩ := List.mem_map.mp h2
    rfl
  have hsorted : ∀ d ∈ List.insertionSort scoreGE (sc.zip (t.zip t)),
      (d : ℚ × ℚ × ℚ).2.1 = d.2.2 :=
    fun d hd => hdiag d ((List.perm_insertionSort scoreGE _).mem_iff.mp hd)
  have hmaps : (List.insertionSort scoreGE (sc.zip (t.zip t))).map (fun d => d.2.1)
      = (List.insertionSort scoreGE (sc.zip (t.zip t))).map (fun d => d.2.2) :=
    List.map_congr_left hsorted
  have hfst : (precision_recall n sc t t).1 =
      (cumsum ((List.insertionSort scoreGE (sc.zip (t.zip t))).map (fun d => d.2.1))).map
        (fun c => safe_div c (c + c)) := by
    simp only [precision_recall]
    rw [← hmaps, zipWith_self]
  rw [hfst]
  intro y hy
  obtain ⟨c, _, rfl⟩ := List.mem_map.mp hy
  exact safe_div_double c

lemma update_fp_tensor_irrelevant (rz : Bool) (s : PRState) (b : Batch) (x : List ℚ) :
    update rz s { b with fp_tensor := x } = update rz s b := rfl

lemma foldl_update_fp_irrel (rz : Bool) (g : Batch → List ℚ) :
    ∀ (l : List Batch) (s : PRState),
      (l.map (fun b => { b with fp_tensor := g b })).foldl (update rz) s
        = l.foldl (update rz) s
  | [], _ => rfl
  | b :: t, s => by
    simp only [List.map_cons, List.foldl_cons, update_fp_tensor_irrelevant]
    exact foldl_update_fp_irrel rz g t _

/-- C2: for every run of updates (any flag value), the accumulated
false-positive sequence equals the accumulated true-positive sequence,
every entry of the derived precision array is 0 or 1/2, and the whole
accumulator state is independent of the `fp_tensor` inputs. -/
theorem streaming_precision_half_or_zero (rz : Bool) (l : List Batch) (i : ℕ)
    (g : Batch → List ℚ) :
    (runUpdates rz l).v_fp = (runUpdates rz l).v_tp ∧
    ((streamValue (runUpdates rz l)).1.getD i 0 = 0 ∨
     (streamValue (runUpdates rz l)).1.getD i 0 = 1 / 2) ∧
    runUpdates rz (l.map (fun b => { b with fp_tensor := g b })) = runUpdates rz l := by
  have hfp := runUpdates_fp_eq_tp rz l
  refine ⟨hfp, ?_, foldl_update_fp_irrel rz g l initState⟩
  have hsv : (streamValue (runUpdates rz l)).1 =
      (precision_recall (runUpdates rz l).v_nobjects (runUpdates rz l).v_scores
        (runUpdates rz l).v_tp (runUpdates rz l).v_tp).1 := by
    rw [streamValue, hfp]
  rw [hsv]
  exact getD_zero_or_half _ (precision_recall_fst_mem _ _ _) i

lemma cumsum_length (l : List ℚ) : (cumsum l).length = l.length := by
  induction l with
  | nil => rfl
  | cons x xs ih => simp [cumsum, ih]

/-- C3: `_precision_recall` derives its value from a descending-score
reordering of the zipped detections — a permutation of the accumulated
data, sorted by `scoreGE` — with precision and recall given pointwise by
the safe-division formulas over the cumulative sums, and both outputs
have the accumulated length `k`. -/
theorem precision_recall_derivation_spec (n : ℤ) (scores tp fp : List ℚ)
    (h1 : scores.length = tp.length) (h2 : tp.length = fp.length) :
    ∃ sorted : List (ℚ × ℚ × ℚ),
      sorted.Perm (scores.zip (tp.zip fp)) ∧
      List.Sorted scoreGE sorted ∧
      (precision_recall n scores tp fp).1 =
        List.zipWith (fun t f => safe_div t (t + f))
          (cumsum (sorted.map (fun d => d.2.1))) (cumsum (sorted.map (fun d => d.2.2))) ∧
      (precision_recall n scores tp fp).2 =
        (cumsum (sorted.map (fun d => d.2.1))).map (fun t => safe_div t (n : ℚ)) ∧
      (precision_recall n scores tp fp).1.length = scores.length ∧
      (precision_recall n scores tp fp).2.length = scores.length := by
  have hlen : (List.insertionSort scoreGE (scores.zip (tp.zip fp))).length = scores.length := by
    rw [List.length_insertionSort, List.length_zip, List.length_zip]
    omega
  refine ⟨List.insertionSort scoreGE (scores.zip (tp.zip fp)),
    List.perm_insertionSort scoreGE _, List.sorted_insertionSort scoreGE _, rfl, rfl, ?_, ?_⟩
  · simp only [precision_recall, List.length_zipWith, cumsum_length, List.length_map, hlen]
    omega
  · simp only [precision_recall, List.length_map, cumsum_length, hlen]

theorem precision_recall_derivation_spec_witness :
    (([(1 : ℚ)].length = [(1 : ℚ)].length ∧ [(1 : ℚ)].length = [(0 : ℚ)].length) ∧
     ∃ sorted : List (ℚ × ℚ × ℚ),
      sorted.Perm ([(1 : ℚ)].zip ([(1 : ℚ)].zip [(0 : ℚ)])) ∧
      List.Sorted scoreGE sorted ∧
      (precision_recall 1 [1] [1] [0]).1 =
        List.zipWith (fun t f => safe_div t (t + f))
          (cumsum (sorted.map (fun d => d.2.1))) (cumsum (sorted.map (fun d => d.2.2))) ∧
      (precision_recall 1 [1] [1] [0]).2 =
        (cumsum (sorted.map (fun d => d.2.1))).map (fun t => safe_div t ((1 : ℤ) : ℚ)) ∧
      (precision_recall 1 [1] [1] [0]).1.length = [(1 : ℚ)].length ∧
      (precision_recall 1 [1] [1] [0]).2.length = [(1 : ℚ)].length) :=
  ⟨⟨rfl, rfl⟩, precision_recall_derivation_spec 1 [1] [1] [0] rfl rfl⟩

lemma foldl_update_false_char :
    ∀ (l : List Batch) (s : PRState),
      l.foldl (update false) s =
        ⟨s.v_nobjects + (l.map (fun b => b.n_gbboxes.sum)).sum,
         s.v_scores ++ l.flatMap (fun b => b.rscores),
         s.v_tp ++ l.flatMap (fun b => b.tp_tensor),
         s.v_fp ++ l.flatMap (fun b => b.tp_tensor)⟩
  | [], s => by
    cases s
    simp
  | b :: t, s => by
    rw [List.foldl_cons, foldl_update_false_char t]
    simp [update, add_assoc]

lemma runUpdates_false_nobjects (l : List Batch) :
    (runUpdates false l).v_nobjects = (l.map (fun b => b.n_gbboxes.sum)).sum := by
  rw [runUpdates, foldl_update_false_char]
  simp [initState]

lemma runUpdates_false_scores (l : List Batch) :
    (runUpdates false l).v_scores = l.flatMap (fun b => b.rscores) := by
  rw [runUpdates, foldl_update_false_char]
  simp [initState]

lemma runUpdates_false_tp (l : List Batch) :
    (runUpdates false l).v_tp = l.flatMap (fun b => b.tp_tensor) := by
  rw [runUpdates, foldl_update_false_char]
  simp [initState]

lemma runUpdates_false_fp (l : List Batch) :
    (runUpdates false l).v_fp = l.flatMap (fun b => b.tp_tensor) := by
  rw [runUpdates, foldl_update_false_char]
  simp [initState]

lemma flatMap_congr {α β : Type} (l : List α) (f g : α → List β)
    (h : ∀ a ∈ l, f a = g a) : l.flatMap f = l.flatMap g := by
  induction l with
  | nil => rfl
  | cons a t ih => simp [h a (by simp), ih (fun x hx => h x (by simp [hx]))]

lemma flatMap_zip {α : Type} (l : List α) (f g : α → List ℚ)
    (h : ∀ a ∈ l, (f a).length = (g a).length) :
    (l.flatMap f).zip (l.flatMap g) = l.flatMap (fun a => (f a).zip (g a)) := by
  induction l with
  | nil => rfl
  | cons a t ih =>
    simp only [List.flatMap_cons]
    rw [List.zip_append (h a (by simp)), ih (fun x hx => h x (by simp [hx]))]

lemma sorted_unique_of_nodup_keys (l₁ l₂ : List (ℚ × ℚ × ℚ))
    (hp : l₁.Perm l₂) (hs₁ : List.Sorted scoreGE l₁) (hs₂ : List.Sorted scoreGE l₂)
    (hnd : (l₁.map (fun d => d.1)).Nodup) : l₁ = l₂ := by
  haveI : IsAntisymm (ℚ × ℚ × ℚ) (fun x y => y.1 < x.1) :=
    ⟨fun _ _ h1 h2 => absurd (lt_trans h1 h2) (lt_irrefl _)⟩
  have hnd₂ : (l₂.map (fun d => d.1)).Nodup := (hp.map _).nodup_iff.mp hnd
  have hstrict : ∀ m : List (ℚ × ℚ × ℚ), List.Sorted scoreGE m →
      (m.map (fun d => d.1)).Nodup →
      List.Pairwise (fun x y : ℚ × ℚ × ℚ => y.1 < x.1) m := by
    intro m hs hn
    have hn' : List.Pairwise (fun x y : ℚ × ℚ × ℚ => x.1 ≠ y.1) m := by
      rw [List.Nodup, List.pairwise_map] at hn
      exact hn
    exact (hs.and hn').imp (fun h => lt_of_le_of_ne h.1 (Ne.symm h.2))
  exact List.eq_of_perm_of_sorted hp (hstrict l₁ hs₁ hnd) (hstrict l₂ hs₂ hnd₂)

lemma precision_recall_eq_of_perm (n : ℤ) (sc₁ t₁ sc₂ t₂ : List ℚ)
    (hperm : (sc₁.zip (t₁.zip t₁)).Perm (sc₂.zip (t₂.zip t₂)))
    (hnd : ((sc₁.zip (t₁.zip t₁)).map (fun d => d.1)).Nodup) :
    precision_recall n sc₁ t₁ t₁ = precision_recall n sc₂ t₂ t₂ := by
  have hsorted_eq : List.insertionSort scoreGE (sc₁.zip (t₁.zip t₁)) =
      List.insertionSort scoreGE (sc₂.zip (t₂.zip t₂)) := by
    apply sorted_unique_of_nodup_keys
    · exact (List.perm_insertionSort _ _).trans
        (hperm.trans (List.perm_insertionSort scoreGE _).symm)
    · exact List.sorted_insertionSort _ _
    · exact List.sorted_insertionSort _ _
    · exact ((List.perm_insertionSort scoreGE _).map _).nodup_iff.mpr hnd
  simp only [precision_recall]
  rw [hsorted_eq]

lemma state_dets_char (m : List Batch)
    (hm : ∀ b ∈ m, b.rscores.length = b.tp_tensor.length) :
    (m.flatMap (fun b => b.rscores)).zip
      ((m.flatMap (fun b => b.tp_tensor)).zip (m.flatMap (fun b => b.tp_tensor)))
    = (m.flatMap (fun b => b.rscores.zip b.tp_tensor)).map
        (fun p => ((p.1, p.2, p.2) : ℚ × ℚ × ℚ)) := by
  rw [zip_self_eq_map, List.zip_map_right, flatMap_zip m _ _ hm]
  apply List.map_congr_left
  intro p _
  rfl

lemma state_dets_keys (m : List Batch)
    (hm : ∀ b ∈ m, b.rscores.length = b.tp_tensor.length) :
    ((m.flatMap (fun b => b.rscores.zip b.tp_tensor)).map
        (fun p => ((p.1, p.2, p.2) : ℚ × ℚ × ℚ))).map (fun d => d.1)
      = m.flatMap (fun b => b.rscores) := by
  rw [List.map_map, List.map_flatMap]
  apply flatMap_congr
  intro b hb
  exact List.map_fst_zip _ _ (le_of_eq (hm b hb))

/-- C9 (counterexample): two batches with tied scores but different
true-positive flags, fed in the two possible orders, accumulate the same
totals but derive different precision/recall values — the stable sort
breaks the score tie by arrival order, so the derived value is not
order-independent. -/
theorem streaming_order_value_counterexample :
    streamValue (runUpdates false
        [⟨[1], [1], [1/2], [1], [0]⟩, ⟨[1], [1], [1/2], [0], [1]⟩]) ≠
      streamValue (runUpdates false
        [⟨[1], [1], [1/2], [0], [1]⟩, ⟨[1], [1], [1/2], [1], [0]⟩]) ∧
    ([⟨[1], [1], [1/2], [1], [0]⟩, ⟨[1], [1], [1/2], [0], [1]⟩] : List Batch).Perm
      [⟨[1], [1], [1/2], [0], [1]⟩, ⟨[1], [1], [1/2], [1], [0]⟩] := by
  constructor
  · norm_num [streamValue, runUpdates, update, initState, precision_recall, cumsum,
      safe_div, scoreGE, List.insertionSort, List.orderedInsert, class_mask, boolean_mask]
  · exact List.Perm.swap _ _ _

/-- C9 (amended): with `remove_zero_labels` disabled, reordering the
batches leaves the accumulated ground-truth total and the accumulated
multisets of scores / true-positive flags / false-positive flags
unchanged, unconditionally for every permutation (tied scores included);
the derived precision/recall value is additionally unchanged provided the
accumulated scores are pairwise distinct (ties are broken by arrival
order, so equal scores may reorder the derivation). -/
theorem streaming_order_independence_amended (l l' : List Batch) (hp : l.Perm l') :
    (runUpdates false l).v_nobjects = (runUpdates false l').v_nobjects ∧
    ((runUpdates false l).v_scores : Multiset ℚ) =
      ((runUpdates false l').v_scores : Multiset ℚ) ∧
    ((runUpdates false l).v_tp : Multiset ℚ) = ((runUpdates false l').v_tp : Multiset ℚ) ∧
    ((runUpdates false l).v_fp : Multiset ℚ) = ((runUpdates false l').v_fp : Multiset ℚ) ∧
    ((∀ b ∈ l, b.rscores.length = b.tp_tensor.length) →
      (l.flatMap (fun b => b.rscores)).Nodup →
      streamValue (runUpdates false l) = streamValue (runUpdates false l')) := by
  have hn : (runUpdates false l).v_nobjects = (runUpdates false l').v_nobjects := by
    rw [runUpdates_false_nobjects, runUpdates_false_nobjects]
    exact (hp.map _).sum_eq
  refine ⟨hn, ?_, ?_, ?_, ?_⟩
  · rw [runUpdates_false_scores, runUpdates_false_scores]
    exact Multiset.coe_eq_coe.mpr (hp.flatMap_right _)
  · rw [runUpdates_false_tp, runUpdates_false_tp]
    exact Multiset.coe_eq_coe.mpr (hp.flatMap_right _)
  · rw [runUpdates_false_fp, runUpdates_false_fp]
    exact Multiset.coe_eq_coe.mpr (hp.flatMap_right _)
  · intro hlen hnd
    have hlen' : ∀ b ∈ l', b.rscores.length = b.tp_tensor.length :=
      fun b hb => hlen b (hp.mem_iff.mpr hb)
    rw [streamValue, streamValue, hn, runUpdates_false_scores, runUpdates_false_tp,
      runUpdates_false_fp, runUpdates_false_scores l', runUpdates_false_tp l',
      runUpdates_false_fp l']
    apply precision_recall_eq_of_perm
    · rw [state_dets_char l hlen, state_dets_char l' hlen']
      exact (hp.flatMap_right _).map _
    · rw [state_dets_char l hlen, state_dets_keys l hlen]
      exact hnd

theorem streaming_order_independence_amended_witness :
    (([⟨[1], [1], [1/2], [1], [0]⟩, ⟨[1], [1], [3/4], [0], [1]⟩] : List Batch).Perm
       [⟨[1], [1], [3/4], [0], [1]⟩, ⟨[1], [1], [1/2], [1], [0]⟩] ∧
     ((runUpdates false [⟨[1], [1], [1/2], [1], [0]⟩, ⟨[1], [1], [3/4], [0], [1]⟩]).v_nobjects =
       (runUpdates false [⟨[1], [1], [3/4], [0], [1]⟩, ⟨[1], [1], [1/2], [1], [0]⟩]).v_nobjects ∧
      ((runUpdates false [⟨[1], [1], [1/2], [1], [0]⟩, ⟨[1], [1], [3/4], [0], [1]⟩]).v_scores :
         Multiset ℚ) =
        ((runUpdates false [⟨[1], [1], [3/4], [0], [1]⟩, ⟨[1], [1], [1/2], [1], [0]⟩]).v_scores :
         Multiset ℚ) ∧
      ((runUpdates false [⟨[1], [1], [1/2], [1], [0]⟩, ⟨[1], [1], [3/4], [0], [1]⟩]).v_tp :
         Multiset ℚ) =
        ((runUpdates false [⟨[1], [1], [3/4], [0], [1]⟩, ⟨[1], [1], [1/2], [1], [0]⟩]).v_tp :
         Multiset ℚ) ∧
      ((runUpdates false [⟨[1], [1], [1/2], [1], [0]⟩, ⟨[1], [1], [3/4], [0], [1]⟩]).v_fp :
         Multiset ℚ) =
        ((runUpdates false [⟨[1], [1], [3/4], [0], [1]⟩, ⟨[1], [1], [1/2], [1], [0]⟩]).v_fp :
         Multiset ℚ) ∧
      ((∀ b ∈ ([⟨[1], [1], [1/2], [1], [0]⟩, ⟨[1], [1], [3/4], [0], [1]⟩] : List Batch),
          b.rscores.length = b.tp_tensor.length) →
        (([⟨[1], [1], [1/2], [1], [0]⟩, ⟨[1], [1], [3/4], [0], [1]⟩] : List Batch).flatMap
          (fun b => b.rscores)).Nodup →
        streamValue (runUpdates false
            [⟨[1], [1], [1/2], [1], [0]⟩, ⟨[1], [1], [3/4], [0], [1]⟩]) =
          streamValue (runUpdates false
            [⟨[1], [1], [3/4], [0], [1]⟩, ⟨[1], [1], [1/2], [1], [0]⟩]))) ∧
     streamValue (runUpdates false [⟨[1], [1], [1/2], [1], [0]⟩, ⟨[1], [1], [3/4], [0], [1]⟩]) =
       streamValue (runUpdates false
         [⟨[1], [1], [3/4], [0], [1]⟩, ⟨[1], [1], [1/2], [1], [0]⟩])) ∧
    ((runUpdates false [⟨[1], [1], [1/2], [1], [0]⟩, ⟨[1], [1], [1/2], [0], [1]⟩]).v_scores :
       Multiset ℚ) =
      ((runUpdates false [⟨[1], [1], [1/2], [0], [1]⟩, ⟨[1], [1], [1/2], [1], [0]⟩]).v_scores :
       Multiset ℚ) := by
  have hperm : ([⟨[1], [1], [1/2], [1], [0]⟩, ⟨[1], [1], [3/4], [0], [1]⟩] : List Batch).Perm
      [⟨[1], [1], [3/4], [0], [1]⟩, ⟨[1], [1], [1/2], [1], [0]⟩] := List.Perm.swap _ _ _
  have hlen : ∀ b ∈ ([⟨[1], [1], [1/2], [1], [0]⟩, ⟨[1], [1], [3/4], [0], [1]⟩] : List Batch),
      b.rscores.length = b.tp_tensor.length := by
    intro b hb
    fin_cases hb <;> rfl
  have hnd : (([⟨[1], [1], [1/2], [1], [0]⟩, ⟨[1], [1], [3/4], [0], [1]⟩] :
      List Batch).flatMap (fun b => b.rscores)).Nodup := by
    norm_num
  have h := streaming_order_independence_amended _ _ hperm
  have htied := streaming_order_independence_amended
    [⟨[1], [1], [1/2], [1], [0]⟩, ⟨[1], [1], [1/2], [0], [1]⟩]
    [⟨[1], [1], [1/2], [0], [1]⟩, ⟨[1], [1], [1/2], [1], [0]⟩] (List.Perm.swap _ _ _)
  exact ⟨⟨hperm, h, h.2.2.2.2 hlen hnd⟩, htied.2.1⟩

end SSDTF
